import Mathlib

/-!
Verification of the wandb C++ binding (`experimental/go-sdk/bindings/cpp/lib/
libwandb_cpp.cpp` together with its header `libwandb_cpp.h`).

The binding sits in front of an opaque "core engine" reached through the C
interface `wandbcore*`.  We embed the binding's logic shallowly: every engine
call the binding issues is recorded as an event in a trace, and the engine's
returned handles are supplied by an oracle (an `Engine` record of functions).
-/

namespace WandbCpp

/-- `wandb::Value`, i.e. `std::variant<int, double, std::string>` from
`libwandb_cpp.h`.  The binding never performs arithmetic on the `double`
alternative — it only moves the value across the boundary — so the payload is
carried opaquely as its 64-bit pattern (a `Nat`). -/
inductive Value where
  | vInt (n : Int)
  | vDouble (bits : Nat)
  | vString (s : String)
deriving DecidableEq

/-- A `std::unordered_map<std::string, Value>` (`wandb::Config` /
`wandb::History`), embedded as its entry list in iteration order.  An
`unordered_map` has pairwise-distinct keys; where a claim needs that fact it
appears as an explicit `Nodup` hypothesis. -/
abbrev KVMap := List (String × Value)

/-- The three per-type batches built by `Data::Data`'s loop:
(`keyDoubles`,`valDoubles`), (`keyInts`,`valInts`), (`keyStrings`,`valStrings`),
kept as key-value pairs. -/
structure Batches where
  doubles : List (String × Nat)
  ints : List (String × Int)
  strings : List (String × String)
deriving DecidableEq

/-- The partition loop of `Data::Data`: each entry is pushed onto exactly one
batch according to which alternative its `std::variant` holds (`int` first,
then `double`, then `std::string`), in iteration order. -/
def codecBatches : KVMap → Batches
  | [] => ⟨[], [], []⟩
  | (k, v) :: rest =>
    let b := codecBatches rest
    match v with
    | .vInt n => { b with ints := (k, n) :: b.ints }
    | .vDouble x => { b with doubles := (k, x) :: b.doubles }
    | .vString s => { b with strings := (k, s) :: b.strings }

/-- One call the binding issues into the core engine (`wandbcore*` C API). -/
inductive ECall where
  | dataAddDoubles (h : Int) (batch : List (String × Nat))
  | dataAddInts (h : Int) (batch : List (String × Int))
  | dataAddStrings (h : Int) (batch : List (String × String))
  | dataFree (h : Int)
  | logData (run : Int) (data : Int)
  | init (config : Int) (name runID project : String)
  | finish (run : Int)
  | setup
  | teardown
deriving DecidableEq

/-- Oracle for the handles the core engine returns.  The engine is opaque to
the binding; each record field gives the return value of the corresponding
`wandbcore*` call. -/
structure Engine where
  addDoubles : Int → List (String × Nat) → Int
  addInts : Int → List (String × Int) → Int
  addStrings : Int → List (String × String) → Int
  initRun : Int → String → String → String → Int

/-- Modelled from the spec: the constant `WANDBCORE_DATA_CREATE` comes from the
generated engine header `libwandb_core.h`, which is not among the sources; the
spec fixes the DataHandle sentinel "no data" value at 0, and this constant is
the initial handle threaded into the first add call. -/
def WANDBCORE_DATA_CREATE : Int := 0

/-- `Data::Data(const std::unordered_map<std::string, Value> *myMap)`:
`num` starts at 0; a null map returns at once with no engine call; otherwise
the three add calls are issued only for non-empty batches (`doubles`, then
`ints`, then `strings`, matching the source order), each reusing the handle the
previous call returned, and the final handle becomes `num`.  Returns the final
`num` together with the trace of engine calls issued. -/
def dataCreate (e : Engine) : Option KVMap → Int × List ECall
  | none => (0, [])
  | some m =>
    let b := codecBatches m
    let s0 : Int × List ECall := (WANDBCORE_DATA_CREATE, [])
    let s1 := if b.doubles ≠ [] then
        (e.addDoubles s0.1 b.doubles, s0.2 ++ [ECall.dataAddDoubles s0.1 b.doubles])
      else s0
    let s2 := if b.ints ≠ [] then
        (e.addInts s1.1 b.ints, s1.2 ++ [ECall.dataAddInts s1.1 b.ints])
      else s1
    let s3 := if b.strings ≠ [] then
        (e.addStrings s2.1 b.strings, s2.2 ++ [ECall.dataAddStrings s2.1 b.strings])
      else s2
    s3

/-- `wandb::Run`: holds only the opaque engine handle `_num`.  Note the class
has no "finished" flag and no other state. -/
structure Run where
  num : Int
deriving DecidableEq

/-- `Run::log`: builds a `Data` from a pointer to the (always present) map and
issues `wandbcoreLogData(_num, data->num)`.  The `Data` object is allocated
with `new` and never deleted, so its destructor — the only place
`wandbcoreDataFree` is called — never runs and no free event is emitted. -/
def runLog (e : Engine) (r : Run) (m : KVMap) : List ECall :=
  let d := dataCreate e (some m)
  d.2 ++ [ECall.logData r.num d.1]

/-- `Run::finish`: issues `wandbcoreFinish(_num)`; the `Run` itself is
unchanged (it has no state besides `_num`). -/
def runFinish (r : Run) : List ECall :=
  [ECall.finish r.num]

/-- The process-wide mutable state the binding touches: the number of
`_session_teardown` hooks registered with `atexit`. -/
structure ProcState where
  hooks : Nat
deriving DecidableEq

/-- Process start: no `atexit` hook registered yet. -/
def procInit : ProcState := ⟨0⟩

/-- `_session_setup()`: unconditionally calls `wandbcoreSetup()` and then
registers `_session_teardown` with `atexit` — there is no guard, so every
invocation emits a setup call and adds one more hook. -/
def sessionSetupStep (s : ProcState) : ProcState × List ECall :=
  (⟨s.hooks + 1⟩, [ECall.setup])

/-- The argument tuple of `Session::_initRun` (the unused `settings` pointer
is omitted; the body never reads it). -/
structure InitArgs where
  config : Option KVMap
  name : String
  runID : String
  project : String
deriving DecidableEq

/-- `Session::_initRun`: calls `_session_setup()`, builds a config `Data`
(again `new`-allocated and never deleted, so never freed), calls
`wandbcoreInit` with the config handle and the three strings, and returns a
`Run` holding whatever handle the engine returned — there is no validity
check and no error path. -/
def sessionInitRunRaw (e : Engine) (s : ProcState) (a : InitArgs) :
    Run × ProcState × List ECall :=
  let su := sessionSetupStep s
  let d := dataCreate e a.config
  let n := e.initRun d.1 a.name a.runID a.project
  (⟨n⟩, su.1, su.2 ++ d.2 ++ [ECall.init d.1 a.name a.runID a.project])

/-- A sequence of run creations in one process, threading the process state
and concatenating the engine-call traces. -/
def runCreations (e : Engine) : ProcState → List InitArgs → ProcState × List ECall
  | s, [] => (s, [])
  | s, a :: rest =>
    let r := sessionInitRunRaw e s a
    let t := runCreations e r.2.1 rest
    (t.1, r.2.2 ++ t.2)

/-- At process exit the C runtime invokes every registered `atexit` hook; each
registered `_session_teardown` emits one `wandbcoreTeardown()` call. -/
def atexitRun (s : ProcState) : List ECall :=
  List.replicate s.hooks ECall.teardown

/-- The full engine-call trace of a process that performs the given run
creations and then exits. -/
def processTrace (e : Engine) (args : List InitArgs) : List ECall :=
  let r := runCreations e procInit args
  r.2 ++ atexitRun r.1

/-- `wandb::Settings` (`libwandb_cpp.h`): an option bag the binding stores but
never reads. -/
structure Settings where
  offline : Bool := false
  apiKey : String := ""
deriving DecidableEq

/-- `wandb::run::InitRunOption`: base class holding one optional field per
option kind; the default constructor sets the pointers to `nullptr` and the
strings default-construct to empty. -/
structure InitRunOption where
  settings : Option Settings := none
  config : Option KVMap := none
  name : String := ""
  runID : String := ""
  project : String := ""
deriving DecidableEq

/-- `wandb::run::WithSettings`. -/
def withSettings (s : Settings) : InitRunOption := { settings := some s }

/-- `wandb::run::WithConfig`. -/
def withConfig (c : KVMap) : InitRunOption := { config := some c }

/-- `wandb::run::WithRunName`. -/
def withRunName (n : String) : InitRunOption := { name := n }

/-- `wandb::run::WithRunID`. -/
def withRunID (i : String) : InitRunOption := { runID := i }

/-- `wandb::run::WithProject`. -/
def withProject (p : String) : InitRunOption := { project := p }

/-- The value of a C++ local variable that may never have been written:
`undef` models the indeterminate value of a local declared without an
initializer ("uninitialized"), `defined a` a value actually assigned. -/
inductive CppLocal (α : Type) where
  | undef
  | defined (a : α)
deriving DecidableEq

/-- The accumulator of `Session::initRun`'s option loop.  In the source,
`settings` and `config` are locals declared without initializers (so they
start indeterminate, not null), while the three `std::string` locals
default-construct to the empty string. -/
structure MergeAcc where
  settings : CppLocal Settings
  config : CppLocal KVMap
  name : String
  runID : String
  project : String
deriving DecidableEq

/-- The accumulator state on entry to the option loop. -/
def mergeInit : MergeAcc := ⟨.undef, .undef, "", "", ""⟩

/-- One iteration of `Session::initRun`'s loop: a non-null pointer field
overwrites the corresponding local, a non-empty string field overwrites the
corresponding local; null pointers and empty strings leave it unchanged. -/
def mergeStep (acc : MergeAcc) (o : InitRunOption) : MergeAcc :=
  let a1 := match o.settings with
    | some s => { acc with settings := CppLocal.defined s }
    | none => acc
  let a2 := match o.config with
    | some c => { a1 with config := CppLocal.defined c }
    | none => a1
  let a3 := if o.name ≠ "" then { a2 with name := o.name } else a2
  let a4 := if o.runID ≠ "" then { a3 with runID := o.runID } else a3
  if o.project ≠ "" then { a4 with project := o.project } else a4

/-- The whole option loop of `Session::initRun`. -/
def mergeOptions (opts : List InitRunOption) : MergeAcc :=
  opts.foldl mergeStep mergeInit

/-- `Session::initRun(options)`: merges the options and calls `_initRun`.
When no option assigned the `settings` or `config` local, the call reads an
indeterminate pointer (and `Data::Data` compares and dereferences the
`config` one) — undefined behavior, modelled as `none`. -/
def sessionInitRun (e : Engine) (s : ProcState) (opts : List InitRunOption) :
    Option (Run × ProcState × List ECall) :=
  let acc := mergeOptions opts
  match acc.settings, acc.config with
  | CppLocal.defined _, CppLocal.defined m =>
    some (sessionInitRunRaw e s ⟨some m, acc.name, acc.runID, acc.project⟩)
  | _, _ => none

/-- State of the `Session` singleton machinery: `defaultSession` is the static
`Session::defaultSession_` pointer (holding the id of the object it points to,
`none` for null), and `created` counts the `Session` objects constructed so
far (object ids are allocated 0, 1, 2, …). -/
structure SessState where
  defaultSession : Option Nat
  created : Nat
deriving DecidableEq

/-- Process start for the singleton machinery: the static pointer is null and
no `Session` has been constructed. -/
def sessInit : SessState := ⟨none, 0⟩

/-- `Session::Session`: constructing any `Session` repoints the static
`defaultSession_` at the new object.  Returns the new object's id. -/
def sessionCtor (s : SessState) : Nat × SessState :=
  (s.created, ⟨some s.created, s.created + 1⟩)

/-- `Session::GetInstance`: if `defaultSession_` is null, construct a fresh
`Session` (whose constructor repoints `defaultSession_`), then return
`defaultSession_`. -/
def getInstance (s : SessState) : Nat × SessState :=
  match s.defaultSession with
  | none =>
    let c := sessionCtor s
    (c.2.defaultSession.getD c.1, c.2)
  | some id => (id, s)

/-- The singleton state after `n` successive `GetInstance` calls from process
start, with no direct `Session` construction in between. -/
def getInstancesState : Nat → SessState
  | 0 => sessInit
  | n + 1 => (getInstance (getInstancesState n)).2

/-- The objects returned by `n` successive `GetInstance` calls from process
start, in call order. -/
def getInstanceResults : Nat → List Nat
  | 0 => []
  | n + 1 => getInstanceResults n ++ [(getInstance (getInstancesState n)).1]

/-- A concrete engine oracle for evaluated counterexamples and witnesses:
every add call returns the previous handle plus one and run initialization
returns 100 plus the config handle. -/
def eEx : Engine where
  addDoubles := fun h _ => h + 1
  addInts := fun h _ => h + 1
  addStrings := fun h _ => h + 1
  initRun := fun h _ _ _ => h + 100

/-- A concrete engine oracle whose run initialization reports the non-valid
handle 0. -/
def eBad : Engine :=
  { eEx with initRun := fun _ _ _ _ => 0 }

/-- A small concrete input map used by evaluated witnesses. -/
def mEx : KVMap := [("a", Value.vInt 1), ("b", Value.vDouble 7), ("c", Value.vString "x")]

/-- A concrete `_initRun` argument tuple (no config, empty strings) used by
evaluated counterexamples. -/
def argsEx : InitArgs := ⟨none, "", "", ""⟩

/-- Whether an engine call is one of the three batch-add calls. -/
def ECall.isAdd : ECall → Bool
  | .dataAddDoubles _ _ => true
  | .dataAddInts _ _ => true
  | .dataAddStrings _ _ => true
  | _ => false

/-- Checks that a trace is a well-threaded chain of add calls: starting from
handle `h`, each add call must receive the handle produced so far, and the
oracle's return for it becomes the next handle.  Returns the final handle when
the whole trace threads correctly. -/
def chainFrom (e : Engine) : Int → List ECall → Option Int
  | h, [] => some h
  | h, ECall.dataAddDoubles h' b :: rest =>
    if h' = h then chainFrom e (e.addDoubles h b) rest else none
  | h, ECall.dataAddInts h' b :: rest =>
    if h' = h then chainFrom e (e.addInts h b) rest else none
  | h, ECall.dataAddStrings h' b :: rest =>
    if h' = h then chainFrom e (e.addStrings h b) rest else none
  | _, _ :: _ => none

/- ### Characterizations of the `Data::Data` partition loop -/

theorem codecBatches_ints (m : KVMap) :
    (codecBatches m).ints = m.filterMap (fun p => match p.2 with
      | Value.vInt n => some (p.1, n)
      | _ => none) := by
  induction m with
  | nil => rfl
  | cons kv rest ih =>
    obtain ⟨k, v⟩ := kv
    cases v <;> simp [codecBatches, ih, List.filterMap_cons]

theorem codecBatches_doubles (m : KVMap) :
    (codecBatches m).doubles = m.filterMap (fun p => match p.2 with
      | Value.vDouble x => some (p.1, x)
      | _ => none) := by
  induction m with
  | nil => rfl
  | cons kv rest ih =>
    obtain ⟨k, v⟩ := kv
    cases v <;> simp [codecBatches, ih, List.filterMap_cons]

theorem codecBatches_strings (m : KVMap) :
    (codecBatches m).strings = m.filterMap (fun p => match p.2 with
      | Value.vString s => some (p.1, s)
      | _ => none) := by
  induction m with
  | nil => rfl
  | cons kv rest ih =>
    obtain ⟨k, v⟩ := kv
    cases v <;> simp [codecBatches, ih, List.filterMap_cons]

/-- The keys of the three batches, in batch order (doubles, ints, strings). -/
def codecKeys (m : KVMap) : List String :=
  (codecBatches m).doubles.map Prod.fst ++ (codecBatches m).ints.map Prod.fst ++
    (codecBatches m).strings.map Prod.fst

theorem codecKeys_perm (m : KVMap) : (codecKeys m).Perm (m.map Prod.fst) := by
  induction m with
  | nil => simp [codecKeys, codecBatches]
  | cons kv rest ih =>
    obtain ⟨k, v⟩ := kv
    cases v with
    | vInt n =>
      simp only [codecKeys, codecBatches, List.map_cons] at ih ⊢
      rw [List.append_assoc, List.cons_append]
      refine List.perm_middle.trans ?_
      simpa using ih.cons k
    | vDouble x =>
      simp only [codecKeys, codecBatches, List.map_cons] at ih ⊢
      simpa using ih.cons k
    | vString s =>
      simp only [codecKeys, codecBatches, List.map_cons] at ih ⊢
      refine List.perm_middle.trans ?_
      simpa using ih.cons k

theorem mem_codec_ints (m : KVMap) (k : String) (n : Int) :
    (k, n) ∈ (codecBatches m).ints ↔ (k, Value.vInt n) ∈ m := by
  rw [codecBatches_ints, List.mem_filterMap]
  constructor
  · rintro ⟨⟨k', v'⟩, hm, he⟩
    cases v' with
    | vInt n' =>
      simp only [Option.some.injEq, Prod.mk.injEq] at he
      obtain ⟨rfl, rfl⟩ := he
      exact hm
    | vDouble x => cases he
    | vString s => cases he
  · intro hm
    exact ⟨(k, Value.vInt n), hm, rfl⟩

theorem mem_codec_doubles (m : KVMap) (k : String) (x : Nat) :
    (k, x) ∈ (codecBatches m).doubles ↔ (k, Value.vDouble x) ∈ m := by
  rw [codecBatches_doubles, List.mem_filterMap]
  constructor
  · rintro ⟨⟨k', v'⟩, hm, he⟩
    cases v' with
    | vDouble x' =>
      simp only [Option.some.injEq, Prod.mk.injEq] at he
      obtain ⟨rfl, rfl⟩ := he
      exact hm
    | vInt n => cases he
    | vString s => cases he
  · intro hm
    exact ⟨(k, Value.vDouble x), hm, rfl⟩

theorem mem_codec_strings (m : KVMap) (k : String) (s : String) :
    (k, s) ∈ (codecBatches m).strings ↔ (k, Value.vString s) ∈ m := by
  rw [codecBatches_strings, List.mem_filterMap]
  constructor
  · rintro ⟨⟨k', v'⟩, hm, he⟩
    cases v' with
    | vString s' =>
      simp only [Option.some.injEq, Prod.mk.injEq] at he
      obtain ⟨rfl, rfl⟩ := he
      exact hm
    | vInt n => cases he
    | vDouble x => cases he
  · intro hm
    exact ⟨(k, Value.vString s), hm, rfl⟩

/-- C1: for every KeyValueMap given to the `Data::Data` marshalling step, the
keys of the three per-type batches taken together are a permutation of the
input's key list (no key lost, none duplicated — in particular they stay
pairwise distinct whenever the input keys are), and within each batch a key is
paired with exactly the value it carried in the input map. -/
theorem codec_partition_exact (m : KVMap) :
    (codecKeys m).Perm (m.map Prod.fst) ∧
    ((m.map Prod.fst).Nodup → (codecKeys m).Nodup) ∧
    (∀ k n, (k, n) ∈ (codecBatches m).ints ↔ (k, Value.vInt n) ∈ m) ∧
    (∀ k x, (k, x) ∈ (codecBatches m).doubles ↔ (k, Value.vDouble x) ∈ m) ∧
    (∀ k s, (k, s) ∈ (codecBatches m).strings ↔ (k, Value.vString s) ∈ m) :=
  ⟨codecKeys_perm m,
   fun h => ((codecKeys_perm m).nodup_iff).mpr h,
   mem_codec_ints m, mem_codec_doubles m, mem_codec_strings m⟩

/-- Evaluated witness for C1 at the concrete map
`{"a" ↦ 1, "b" ↦ double 7, "c" ↦ "x"}`. -/
theorem codec_partition_exact_witness :
    (codecKeys mEx).Perm (mEx.map Prod.fst) ∧ (codecKeys mEx).Nodup ∧
    (("a", (1 : Int)) ∈ (codecBatches mEx).ints ↔ ("a", Value.vInt 1) ∈ mEx) :=
  ⟨(codec_partition_exact mEx).1,
   (codec_partition_exact mEx).2.1 (by decide),
   (codec_partition_exact mEx).2.2.1 "a" 1⟩

/- ### The `Data` marshalling step -/

theorem dataCreate_all_isAdd (e : Engine) (c : Option KVMap) :
    ((dataCreate e c).2.all ECall.isAdd) = true := by
  cases c with
  | none => rfl
  | some m =>
    by_cases hd : (codecBatches m).doubles = [] <;>
    by_cases hi : (codecBatches m).ints = [] <;>
    by_cases hs : (codecBatches m).strings = [] <;>
    simp [dataCreate, hd, hi, hs, ECall.isAdd]

theorem mem_dataCreate_isAdd (e : Engine) (c : Option KVMap) :
    ∀ x ∈ (dataCreate e c).2, x.isAdd = true := by
  have h := dataCreate_all_isAdd e c
  rw [List.all_eq_true] at h
  exact h

theorem setup_not_mem_dataCreate (e : Engine) (c : Option KVMap) :
    ECall.setup ∉ (dataCreate e c).2 := by
  intro hmem
  simpa [ECall.isAdd] using mem_dataCreate_isAdd e c _ hmem

theorem teardown_not_mem_dataCreate (e : Engine) (c : Option KVMap) :
    ECall.teardown ∉ (dataCreate e c).2 := by
  intro hmem
  simpa [ECall.isAdd] using mem_dataCreate_isAdd e c _ hmem

theorem dataFree_not_mem_dataCreate (e : Engine) (c : Option KVMap) (h : Int) :
    ECall.dataFree h ∉ (dataCreate e c).2 := by
  intro hmem
  simpa [ECall.isAdd] using mem_dataCreate_isAdd e c _ hmem

/-- C8: a null input map yields the sentinel no-data handle 0 with no engine
call at all; a present map issues one add call per non-empty per-type batch —
never a zero-length one — threading the handle returned by each add call into
the next, ending at the handle stored in `num`. -/
theorem dataCreate_batches (e : Engine) (m : KVMap) :
    dataCreate e none = (0, []) ∧
    chainFrom e WANDBCORE_DATA_CREATE (dataCreate e (some m)).2 =
      some (dataCreate e (some m)).1 ∧
    (∀ h b, ECall.dataAddDoubles h b ∈ (dataCreate e (some m)).2 →
      b = (codecBatches m).doubles ∧ b ≠ []) ∧
    (∀ h b, ECall.dataAddInts h b ∈ (dataCreate e (some m)).2 →
      b = (codecBatches m).ints ∧ b ≠ []) ∧
    (∀ h b, ECall.dataAddStrings h b ∈ (dataCreate e (some m)).2 →
      b = (codecBatches m).strings ∧ b ≠ []) ∧
    ((codecBatches m).doubles ≠ [] →
      ∃ h, ECall.dataAddDoubles h (codecBatches m).doubles ∈ (dataCreate e (some m)).2) ∧
    ((codecBatches m).ints ≠ [] →
      ∃ h, ECall.dataAddInts h (codecBatches m).ints ∈ (dataCreate e (some m)).2) ∧
    ((codecBatches m).strings ≠ [] →
      ∃ h, ECall.dataAddStrings h (codecBatches m).strings ∈ (dataCreate e (some m)).2) := by
  refine ⟨rfl, ?_⟩
  by_cases hd : (codecBatches m).doubles = [] <;>
  by_cases hi : (codecBatches m).ints = [] <;>
  by_cases hs : (codecBatches m).strings = [] <;>
  constructor <;>
  simp_all [dataCreate, chainFrom, hd, hi, hs]

/-- Evaluated witness for C8 at a concrete engine and map: the trace threads
correctly and the non-empty int batch produces an add call. -/
theorem dataCreate_batches_witness :
    chainFrom eEx WANDBCORE_DATA_CREATE (dataCreate eEx (some mEx)).2 =
      some (dataCreate eEx (some mEx)).1 ∧
    (∃ h, ECall.dataAddInts h (codecBatches mEx).ints ∈ (dataCreate eEx (some mEx)).2) :=
  ⟨(dataCreate_batches eEx mEx).2.1,
   (dataCreate_batches eEx mEx).2.2.2.2.2.2.1 (by decide)⟩

/-- C10 (spec-modelled sentinel): logging an empty but present map issues no
add-batch and no free call, yet still invokes the engine log-data operation
exactly once, with the sentinel no-data handle 0. -/
theorem log_empty_map (e : Engine) (r : Run) :
    runLog e r [] = [ECall.logData r.num 0] := by
  simp [runLog, dataCreate, codecBatches, WANDBCORE_DATA_CREATE]

/-- C2: the engine free operation is never invoked — neither by `Run::log` nor
by `Session::_initRun` — because the `Data` object is allocated with `new` and
never deleted, so `~Data` (the only caller of `wandbcoreDataFree`) never runs;
the concrete evaluation shows a created handle consumed by the log call and
then leaked. -/
theorem data_handle_never_freed (e : Engine) (r : Run) (m : KVMap) (s : ProcState)
    (a : InitArgs) (h : Int) :
    ECall.dataFree h ∉ runLog e r m ∧
    ECall.dataFree h ∉ (sessionInitRunRaw e s a).2.2 ∧
    runLog eEx ⟨7⟩ [("a", Value.vInt 1)] =
      [ECall.dataAddInts 0 [("a", 1)], ECall.logData 7 1] := by
  refine ⟨?_, ?_, by decide⟩
  · intro hmem
    simp only [runLog, List.mem_append, List.mem_singleton] at hmem
    rcases hmem with hmem | hmem
    · exact dataFree_not_mem_dataCreate e (some m) h hmem
    · cases hmem
  · intro hmem
    simp only [sessionInitRunRaw, sessionSetupStep, List.mem_append,
      List.mem_singleton, List.mem_cons, List.not_mem_nil, or_false] at hmem
    rcases hmem with (hmem | hmem) | hmem
    · cases hmem
    · exact dataFree_not_mem_dataCreate e a.config h hmem
    · cases hmem

/- ### Session setup / teardown lifecycle -/

theorem sessionInitRunRaw_setup_count (e : Engine) (s : ProcState) (a : InitArgs) :
    (sessionInitRunRaw e s a).2.2.count ECall.setup = 1 := by
  have h1 : (dataCreate e a.config).2.count ECall.setup = 0 :=
    List.count_eq_zero.mpr (setup_not_mem_dataCreate e a.config)
  simp [sessionInitRunRaw, sessionSetupStep, List.count_append, h1]

theorem teardown_not_mem_sessionInitRunRaw (e : Engine) (s : ProcState) (a : InitArgs) :
    ECall.teardown ∉ (sessionInitRunRaw e s a).2.2 := by
  intro hmem
  simp only [sessionInitRunRaw, sessionSetupStep, List.mem_append,
    List.mem_singleton, List.mem_cons, List.not_mem_nil, or_false] at hmem
  rcases hmem with (hmem | hmem) | hmem
  · cases hmem
  · exact teardown_not_mem_dataCreate e a.config hmem
  · cases hmem

theorem runCreations_setup_count (e : Engine) (args : List InitArgs) :
    ∀ s, (runCreations e s args).2.count ECall.setup = args.length := by
  induction args with
  | nil => intro s; rfl
  | cons a rest ih =>
    intro s
    simp [runCreations, List.count_append, sessionInitRunRaw_setup_count, ih,
      Nat.add_comm]

theorem runCreations_hooks (e : Engine) (args : List InitArgs) :
    ∀ s, (runCreations e s args).1.hooks = s.hooks + args.length := by
  induction args with
  | nil => intro s; rfl
  | cons a rest ih =>
    intro s
    show (runCreations e ⟨s.hooks + 1⟩ rest).1.hooks = s.hooks + (a :: rest).length
    rw [ih]
    simp
    omega

theorem teardown_not_mem_runCreations (e : Engine) (args : List InitArgs) :
    ∀ s, ECall.teardown ∉ (runCreations e s args).2 := by
  induction args with
  | nil => intro s h; cases h
  | cons a rest ih =>
    intro s hmem
    simp only [runCreations, List.mem_append] at hmem
    rcases hmem with hmem | hmem
    · exact teardown_not_mem_sessionInitRunRaw e s a hmem
    · exact ih _ hmem

theorem setup_not_mem_atexitRun (s : ProcState) : ECall.setup ∉ atexitRun s := by
  intro hmem
  rcases List.eq_of_mem_replicate hmem with h
  cases h

/-- C3 counterexample: a process making two run creations issues the engine
setup call twice, not exactly once — the second invocation is not a no-op. -/
theorem setup_once_counterexample :
    (processTrace eEx [argsEx, argsEx]).count ECall.setup ≠ 1 := by decide

/-- C3 amended: `_session_setup()` runs unguarded on every `_initRun`, so a
process making N run creations issues exactly N engine setup calls (one per
creation), not one. -/
theorem processTrace_setup_count (e : Engine) (args : List InitArgs) :
    (processTrace e args).count ECall.setup = args.length := by
  have h1 : (atexitRun (runCreations e procInit args).1).count ECall.setup = 0 :=
    List.count_eq_zero.mpr (setup_not_mem_atexitRun _)
  simp [processTrace, List.count_append, runCreations_setup_count, h1]

/-- C7 counterexample: after two run creations, process exit runs the
teardown hook twice — teardown is not called at most once. -/
theorem teardown_at_most_once_counterexample :
    ¬ (processTrace eEx [argsEx, argsEx]).count ECall.teardown ≤ 1 := by decide

/-- C7 amended: the engine teardown operation is called exactly as many times
as the setup operation (once per run creation, since each `_session_setup`
registers one more `atexit` hook), and every teardown call still happens only
after a setup call occurred earlier in the trace. -/
theorem teardown_only_after_setup (e : Engine) (args : List InitArgs) :
    (processTrace e args).count ECall.teardown =
      (processTrace e args).count ECall.setup ∧
    ∀ l₁ l₂, processTrace e args = l₁ ++ ECall.teardown :: l₂ →
      ECall.setup ∈ l₁ := by
  have hmain : ECall.teardown ∉ (runCreations e procInit args).2 :=
    teardown_not_mem_runCreations e args procInit
  have hhooks : (runCreations e procInit args).1.hooks = args.length := by
    simpa [procInit] using runCreations_hooks e args procInit
  have hsetup : (runCreations e procInit args).2.count ECall.setup = args.length :=
    runCreations_setup_count e args procInit
  constructor
  · have h0 : (runCreations e procInit args).2.count ECall.teardown = 0 :=
      List.count_eq_zero.mpr hmain
    have h1 : (atexitRun (runCreations e procInit args).1).count ECall.teardown =
        args.length := by
      simp [atexitRun, hhooks]
    have h2 : (atexitRun (runCreations e procInit args).1).count ECall.setup = 0 :=
      List.count_eq_zero.mpr (setup_not_mem_atexitRun _)
    simp [processTrace, List.count_append, h0, h1, h2, hsetup]
  · intro l₁ l₂ hsplit
    have hpos : 0 < args.length := by
      by_contra hlen
      have : args.length = 0 := by omega
      have hempty : atexitRun (runCreations e procInit args).1 = [] := by
        simp [atexitRun, hhooks, this]
      have : ECall.teardown ∈ processTrace e args := by
        rw [hsplit]; simp
      rw [processTrace, hempty, List.append_nil] at this
      exact hmain this
    have hsetup_mem : ECall.setup ∈ (runCreations e procInit args).2 := by
      have : 0 < (runCreations e procInit args).2.count ECall.setup := by
        rw [hsetup]; exact hpos
      exact List.count_pos_iff.mp this
    rw [processTrace] at hsplit
    rcases List.append_eq_append_iff.mp hsplit with ⟨a', ha1, _⟩ | ⟨c', hc1, hc2⟩
    · exact ha1 ▸ List.mem_append_left _ hsetup_mem
    · cases c' with
      | nil =>
        rw [List.append_nil] at hc1
        exact hc1 ▸ hsetup_mem
      | cons x xs =>
        exfalso
        rw [List.cons_append] at hc2
        injection hc2 with hx _
        have : ECall.teardown ∈ (runCreations e procInit args).2 := by
          rw [hc1, ← hx]
          exact List.mem_append_right _ (List.mem_cons_self _ _)
        exact hmain this

/-- Evaluated witness for the amended C7 at a concrete one-creation process,
whose trace is `[setup, init 0 "" "" "", teardown]`: the split before the
teardown event has a setup in its left part. -/
theorem teardown_only_after_setup_witness :
    ECall.setup ∈ [ECall.setup, ECall.init 0 "" "" ""] :=
  (teardown_only_after_setup eEx [argsEx]).2
    [ECall.setup, ECall.init 0 "" "" ""] [] (by decide)

/- ### Run state after finish, invalid handles, option merging, the singleton -/

/-- C5 counterexample: calling `log` on run handle 7 after `finish()` — the
log is not rejected: it issues two further engine calls (an add and the
log-data call), not zero, and no UseAfterFinish failure exists anywhere. -/
theorem log_after_finish_counterexample :
    runFinish ⟨7⟩ ++ runLog eEx ⟨7⟩ [("b", Value.vInt 2)] =
      [ECall.finish 7, ECall.dataAddInts 0 [("b", 2)], ECall.logData 7 1] ∧
    runLog eEx ⟨7⟩ [("b", Value.vInt 2)] ≠ [] := by decide

/-- C5 amended: a `Run` holds nothing but its handle — there is no Finished
state — so `log` and `finish` after `finish()` are not rejected: a log still
issues its engine log-data call and a finish re-issues the engine finish
call, exactly as before the first finish. -/
theorem log_after_finish_still_calls_engine (e : Engine) (r : Run) (m : KVMap) :
    ECall.logData r.num (dataCreate e (some m)).1 ∈ runLog e r m ∧
    ECall.finish r.num ∈ runFinish r := by
  constructor
  · simp [runLog]
  · simp [runFinish]

/-- C6 counterexample: the engine reports the non-valid run handle 0, yet run
creation does not fail — a `Run` carrying handle 0 is returned and a
subsequent `log` on it still issues engine calls. -/
theorem invalid_handle_returns_run_counterexample :
    (sessionInitRunRaw eBad procInit argsEx).1 = ⟨0⟩ ∧
    runLog eBad ⟨0⟩ [("b", Value.vInt 2)] ≠ [] := by decide

/-- C6 amended: `Session::_initRun` performs no validity check and has no
error path: it always returns a `Run` carrying exactly the handle
`wandbcoreInit` returned, valid or not. -/
theorem initRun_stores_engine_handle (e : Engine) (s : ProcState) (a : InitArgs) :
    (sessionInitRunRaw e s a).1 =
      ⟨e.initRun (dataCreate e a.config).1 a.name a.runID a.project⟩ := rfl

/-- C4: evaluating `Session::initRun` at the failing input, the empty option
list: the merge leaves the `settings` and `config` locals indeterminate (they
are declared without initializers and no option writes them), not null, and
the subsequent `_initRun` call reads those indeterminate pointers — undefined
behavior, modelled as `none`.  The last-write-wins rule itself does hold for
options that set a field: two `WithRunName` options resolve to the second. -/
theorem initRun_unset_fields_indeterminate :
    (mergeOptions []).config = CppLocal.undef ∧
    (mergeOptions []).settings = CppLocal.undef ∧
    sessionInitRun eEx procInit [] = none ∧
    (mergeOptions [withRunName "a", withRunName "b"]).name = "b" := by decide

/-- C9 counterexample: `GetInstance`, then a direct `Session` construction
(the constructor is public and repoints `defaultSession_`), then `GetInstance`
again: the two default-session accesses yield different objects, and two
`Session` objects now exist in one process. -/
theorem session_singleton_counterexample :
    (getInstance sessInit).1 = 0 ∧
    (getInstance (sessionCtor (getInstance sessInit).2).2).1 = 1 ∧
    (getInstance (sessionCtor (getInstance sessInit).2).2).2.created = 2 := by decide

theorem getInstancesState_succ (n : Nat) : getInstancesState (n + 1) = ⟨some 0, 1⟩ := by
  induction n with
  | zero => rfl
  | succ k ih =>
    show (getInstance (getInstancesState (k + 1))).2 = ⟨some 0, 1⟩
    rw [ih]
    rfl

/-- C9 amended: when callers reach the default session only through
`GetInstance` (never constructing a `Session` directly), it is created lazily
by the first access, every access returns that same object, and exactly one
`Session` is ever constructed; but the public constructor repoints the default
at each newly constructed object, so several `Session` objects can exist. -/
theorem getInstance_lazy_singleton (n : Nat) :
    (getInstancesState 0).created = 0 ∧
    getInstanceResults (n + 1) = List.replicate (n + 1) 0 ∧
    (getInstancesState (n + 1)).created = 1 := by
  refine ⟨rfl, ?_, by rw [getInstancesState_succ]⟩
  induction n with
  | zero => rfl
  | succ k ih =>
    show getInstanceResults (k + 1) ++ [(getInstance (getInstancesState (k + 1))).1] =
      List.replicate (k + 2) 0
    rw [ih, getInstancesState_succ]
    show List.replicate (k + 1) 0 ++ [0] = List.replicate (k + 2) 0
    rw [← List.replicate_succ' (k + 1) 0]

end WandbCpp
